import Mathlib

/-!
Verification of the checkpointed randomized independent-set-probability solver
(`solver.py`: `ISDPSolver.solve`, `ISDPSolver.solve_at_checkpoints`,
`ISDPSolver._adjust_k`, and the `Solution` record), as a shallow embedding.

Modelling conventions:
* The graph is read through the Graph View interface only: a node list and a
  boolean `has_edge` predicate.  The backing class subclasses `networkx.Graph`
  (undirected), so adjacency is symmetric; that symmetry is carried as a field.
* Python `int`/`float` parameter values are modelled by `PyNum` (`Int` resp.
  exact rationals); `int(x)` on a float truncates toward zero (`truncQ`).
* `random.sample(nodes, kn)` draws are modelled by an explicit draw stream
  `d : Nat -> List Nat`, consumed left to right; `perf_counter()` readings by a
  clock stream `clock : Nat -> Rat`, consumed left to right.
* Fallible paths return `Except PyErr _`: `max([])` raises ValueError, a
  `Solution(...)` call missing a required argument raises TypeError, and
  `x / 0` raises ZeroDivisionError.
-/

/- ===========================================================================
Definitions (the embedding).
=========================================================================== -/

/-- Truncation toward zero, i.e. Python `int()` applied to a float. -/
def truncQ (q : ℚ) : Int := if 0 ≤ q then ⌊q⌋ else ⌈q⌉

/-- A Python number as passed for `k`, `num_iterations`, or a checkpoint:
either an `int` or a `float` (modelled exactly as a rational). -/
inductive PyNum where
  | pint : Int → PyNum
  | pfloat : ℚ → PyNum
deriving DecidableEq

/-- `isinstance(x, float)`. -/
def PyNum.isFloat : PyNum → Bool
  | .pint _ => false
  | .pfloat _ => true

/-- Multiplication by a nonnegative machine integer (`x * n`). -/
def PyNum.mulNat : PyNum → Nat → PyNum
  | .pint i, n => .pint (i * n)
  | .pfloat q, n => .pfloat (q * n)

/-- Python `int(x)`: identity on ints, truncation toward zero on floats. -/
def PyNum.toInt : PyNum → Int
  | .pint i => i
  | .pfloat q => truncQ q

/-- The numeric value, for arithmetic that Python performs in float. -/
def PyNum.toRat : PyNum → ℚ
  | .pint i => (i : ℚ)
  | .pfloat q => q

/-- The Graph View: node identifiers and the `has_edge` query.  The source's
`Graph` subclasses an undirected `networkx.Graph`, hence `edge_symm`. -/
structure Graph where
  nodes : List Nat
  hasEdge : Nat → Nat → Bool
  edge_symm : ∀ u v, hasEdge u v = hasEdge v u

/-- Build a Graph View from an explicit edge list (adjacency in either
orientation), as the file loaders do with `add_edge`. -/
def Graph.ofEdges (ns : List Nat) (es : List (Nat × Nat)) : Graph where
  nodes := ns
  hasEdge := fun u v => decide ((u, v) ∈ es ∨ (v, u) ∈ es)
  edge_symm := by
    intro u v
    simp only [decide_eq_decide]
    exact or_comm

/-- `ISDPSolver._adjust_k` (solver.py:437-440):
`k = min(max(0, int(k * graph.number_of_nodes())), graph.number_of_nodes())`;
the final `int(k) if isinstance(k, float) else k` is the identity because the
clamped value is already an int. -/
def adjust_k (g : Graph) (k : PyNum) : Nat :=
  (min (max 0 ((k.mulNat g.nodes.length).toInt)) (g.nodes.length : Int)).toNat

/-- Inner loop of the independence check (solver.py:357-361 / 214-218): scan
the partners `vs` of `u`, charging one operation per `has_edge` test, and on
the first edge set the verdict to false and break out of this row. -/
def innerLoop (g : Graph) (u : Nat) : List Nat → Nat → Bool → Nat × Bool
  | [], ops, ind => (ops, ind)
  | v :: vs, ops, ind =>
    if g.hasEdge u v then (ops + 1, false) else innerLoop g u vs (ops + 1) ind

/-- Outer loop of the independence check (solver.py:356-361 / 213-218): the
`break` leaves only the inner loop, so every later row is still scanned. -/
def outerLoop (g : Graph) : List Nat → Nat → Bool → Nat × Bool
  | [], ops, ind => (ops, ind)
  | u :: rest, ops, ind =>
    outerLoop g rest (innerLoop g u rest ops ind).1 (innerLoop g u rest ops ind).2

/-- Deduplication-ledger retry loop (solver.py:349-353 / 206-210): up to
`fuel = num_attempts` passes; a subset not yet in the ledger is added and
accepted, a duplicate triggers a redraw; when the passes run out the last
(unchecked) draw is kept and the ledger is left unchanged. -/
def attemptLoop (d : Nat → List Nat) :
    Nat → List Nat → Finset (Finset Nat) → Nat → List Nat × Finset (Finset Nat) × Nat
  | 0, sel, ledger, dIdx => (sel, ledger, dIdx)
  | fuel + 1, sel, ledger, dIdx =>
    if sel.toFinset ∈ ledger then attemptLoop d fuel (d dIdx) ledger (dIdx + 1)
    else (sel, insert sel.toFinset ledger, dIdx)

/-- Python `round()`: round half to even. -/
def roundHalfEven (q : ℚ) : Int :=
  if q - ⌊q⌋ < 1 / 2 then ⌊q⌋
  else if 1 / 2 < q - ⌊q⌋ then ⌊q⌋ + 1
  else if ⌊q⌋ % 2 = 0 then ⌊q⌋ else ⌊q⌋ + 1

/-- The spec's resolution rule as claimed (spec §3):
`kn = clamp(round(k * |nodes|), 0, |nodes|)` when `k` is fractional, else `k`
itself, clamped to `[0, |nodes|]`. -/
def adjust_k_claim (g : Graph) (k : PyNum) : Nat :=
  match k with
  | .pint i => (min (max 0 i) (g.nodes.length : Int)).toNat
  | .pfloat q =>
    (min (max 0 (roundHalfEven (q * g.nodes.length))) (g.nodes.length : Int)).toNat

/-- Amended resolution rule: the code multiplies by `|nodes|` and truncates
toward zero in both cases (there is no separate integer-`k` case). -/
def adjust_k_amended (g : Graph) (k : PyNum) : Nat :=
  match k with
  | .pint i => (min (max 0 (i * g.nodes.length)) (g.nodes.length : Int)).toNat
  | .pfloat q =>
    (min (max 0 (truncQ (q * g.nodes.length))) (g.nodes.length : Int)).toNat

/-- Partners of one row, scanned until (and including) the first edge —
the pairs for which the inner loop calls `has_edge`. -/
def rowStop (g : Graph) (u : Nat) : List Nat → List (Nat × Nat)
  | [] => []
  | v :: vs => if g.hasEdge u v then [(u, v)] else (u, v) :: rowStop g u vs

/-- All pairs the pairwise check examines: each row stops at its first edge,
but every row is visited. -/
def rowsExamined (g : Graph) : List Nat → List (Nat × Nat)
  | [] => []
  | u :: rest => rowStop g u rest ++ rowsExamined g rest

/-- Every unordered pair of the drawn list, in scan order. -/
def allPairs : List Nat → List (Nat × Nat)
  | [] => []
  | u :: rest => rest.map (fun v => (u, v)) ++ allPairs rest

/-- Keep pairs up to and including the first edge. -/
def takeUntilEdge (g : Graph) : List (Nat × Nat) → List (Nat × Nat)
  | [] => []
  | p :: ps => if g.hasEdge p.1 p.2 then [p] else p :: takeUntilEdge g ps

/-- The pairs the claim says are examined: the whole pairwise scan
short-circuits at the first detected edge. -/
def claimExamined (g : Graph) (sel : List Nat) : List (Nat × Nat) :=
  takeUntilEdge g (allPairs sel)

/-- The Python value held by a Solution's `vertices` field: `None`, a list of
node identifiers, or — in the `kn > n or n == 0` branch of
`solve_at_checkpoints`, which passes `example_solution_at_checkpoints`
unchanged — a list of `len(check_points)` `None` values. -/
inductive VerticesVal where
  | pynone : VerticesVal
  | nodes : List Nat → VerticesVal
  | nones : Nat → VerticesVal
deriving DecidableEq

/-- Exceptions the embedded code can raise. -/
inductive PyErr where
  | valueError : PyErr
  | typeError : PyErr
  | zeroDivisionError : PyErr
deriving DecidableEq

/-- The `Solution` record (solver.py:23-43), minus the `graph` back-reference
(the record also stores the graph object; no claim compares graphs, and the
remaining fields keep the constructor's order).  `-1` sentinels are kept as
numbers; Python `None` in the iteration-statistics fields is `Option.none`. -/
structure SolutionRec where
  k : PyNum
  kn : Nat
  success_count : Nat
  success : Bool
  vertices : VerticesVal
  total_time : ℚ
  average_repetition_time : ℚ
  success_probability : ℚ
  min_success_iteration : Option Int
  max_success_iteration : Option Int
  average_success_iteration : Option ℚ
  average_iterations : ℚ
  iterations : Int
  iterations_percentage : ℚ
  repetitions : Int
  average_operations_count : ℚ
deriving DecidableEq

/-- Per-checkpoint accumulator: one slot of the parallel arrays
`success_count_at_checkpoints`, `iterations_checked_at_checkpoints`,
`example_solution_at_checkpoints`, `repetition_times_at_checkpoints` and
`operations_count_at_checkpoints` (solver.py:279-283), bundled with the
checkpoint's resolved iteration budget and percentage. -/
structure CkptAcc where
  cp : Int
  pct : ℚ
  scount : Nat
  itersC : List Nat
  exampleSolution : Option (List Nat)
  times : List ℚ
  opsL : List Nat
deriving DecidableEq

/-- Mutable state while one repetition runs: the per-checkpoint accumulators,
this repetition's ledger and cumulative operation count, the positions in the
draw and clock streams, and the repetition's start time. -/
structure RepState where
  accs : List CkptAcc
  ledger : Finset (Finset Nat)
  ops : Nat
  dIdx : Nat
  cIdx : Nat
  start : ℚ
deriving DecidableEq

/-- Success bookkeeping (solver.py:365-373): every checkpoint with
`iteration < check_point` records the success, the witness, the cumulative
operations, and an elapsed-time reading (one `perf_counter()` call per
satisfied checkpoint). -/
def snapSuccess (clock : Nat → ℚ) (it : Nat) (sel : List Nat) (ops : Nat) (start : ℚ) :
    List CkptAcc → Nat → List CkptAcc × Nat
  | [], cIdx => ([], cIdx)
  | a :: rest, cIdx =>
    if (it : Int) < a.cp then
      let r := snapSuccess clock it sel ops start rest (cIdx + 1)
      (⟨a.cp, a.pct, a.scount + 1, a.itersC ++ [it + 1], some sel,
        a.times ++ [clock cIdx - start], a.opsL ++ [ops]⟩ :: r.1, r.2)
    else
      let r := snapSuccess clock it sel ops start rest cIdx
      (a :: r.1, r.2)

/-- Failure snapshot (solver.py:375-378): when `iteration + 1` equals a
checkpoint, `check_points.index(iteration + 1)` appends the cumulative
operations and an elapsed-time reading at the first matching slot only. -/
def snapFail (clock : Nat → ℚ) (it : Nat) (ops : Nat) (start : ℚ) :
    List CkptAcc → Nat → List CkptAcc × Nat
  | [], cIdx => ([], cIdx)
  | a :: rest, cIdx =>
    if a.cp = (it : Int) + 1 then
      (⟨a.cp, a.pct, a.scount, a.itersC, a.exampleSolution,
        a.times ++ [clock cIdx - start], a.opsL ++ [ops]⟩ :: rest, cIdx + 1)
    else
      let r := snapFail clock it ops start rest cIdx
      (a :: r.1, r.2)

/-- Result of one iteration of the trial loop: success ends the repetition,
otherwise it continues. -/
inductive StepOut where
  | succ : RepState → StepOut
  | cont : RepState → StepOut
deriving DecidableEq

/-- The state carried by either outcome. -/
def StepOut.st : StepOut → RepState
  | .succ s => s
  | .cont s => s

/-- One iteration of the trial loop (solver.py:345-378): draw (charging `n`
operations), run the ledger retry loop, run the pairwise independence check
(one operation per pair examined), charge the trailing `operations_count += 1`,
then either record the success at every satisfied checkpoint and stop, or take
a failure snapshot when the iteration boundary is a checkpoint and continue. -/
def iterStep (g : Graph) (numAttempts : Nat) (d : Nat → List Nat) (clock : Nat → ℚ)
    (it : Nat) (st : RepState) : StepOut :=
  let t := attemptLoop d numAttempts (d st.dIdx) st.ledger (st.dIdx + 1)
  let c := outerLoop g t.1 (st.ops + g.nodes.length) true
  let ops1 := c.1 + 1
  if c.2 then
    let s := snapSuccess clock it t.1 ops1 st.start st.accs st.cIdx
    .succ ⟨s.1, t.2.1, ops1, t.2.2, s.2, st.start⟩
  else
    let s := snapFail clock it ops1 st.start st.accs st.cIdx
    .cont ⟨s.1, t.2.1, ops1, t.2.2, s.2, st.start⟩

/-- How one repetition's loop ended. -/
inductive ExitKind where
  | ranOut : ExitKind
  | succeeded : ExitKind
  | exhausted : ExitKind
deriving DecidableEq

/-- A finished repetition: final state, exit kind, and the number of trials
actually executed. -/
structure RepOut where
  st : RepState
  exit : ExitKind
  trials : Nat
deriving DecidableEq

/-- One repetition's trial loop (solver.py:340-378):
`for iteration in range(max(check_points))`, breaking first when the ledger
holds every one of the `max_combinations` subsets, or on success. -/
def repLoop (g : Graph) (maxComb numAttempts : Nat) (d : Nat → List Nat)
    (clock : Nat → ℚ) : Nat → Nat → RepState → RepOut
  | 0, it, st => ⟨st, .ranOut, it⟩
  | fuel + 1, it, st =>
    if st.ledger.card = maxComb then ⟨st, .exhausted, it⟩
    else
      match iterStep g numAttempts d clock it st with
      | .succ st1 => ⟨st1, .succeeded, it + 1⟩
      | .cont st1 => repLoop g maxComb numAttempts d clock fuel (it + 1) st1

/-- Accumulator/stream state that survives across repetitions. -/
structure SessSt where
  accs : List CkptAcc
  dIdx : Nat
  cIdx : Nat
deriving DecidableEq

/-- The repetition loop (solver.py:336-378): each repetition reads its start
time, begins with a fresh ledger and a zero operation count, and runs the
trial loop up to `budget = max(check_points)` iterations. -/
def repsLoop (g : Graph) (maxComb numAttempts budget : Nat) (d : Nat → List Nat)
    (clock : Nat → ℚ) : Nat → SessSt → SessSt
  | 0, s => s
  | r + 1, s =>
    let out := repLoop g maxComb numAttempts d clock budget 0
      ⟨s.accs, ∅, 0, s.dIdx, s.cIdx + 1, clock s.cIdx⟩
    repsLoop g maxComb numAttempts budget d clock r ⟨out.st.accs, out.st.dIdx, out.st.cIdx⟩

/-- The Aggregator (solver.py:380-431): one Result Record per checkpoint from
that checkpoint's accumulator. -/
def mkRecord (k : PyNum) (kn : Nat) (reps : Int) (a : CkptAcc) : SolutionRec where
  k := k
  kn := kn
  success_count := a.scount
  success := decide (0 < (if 0 < reps then (a.scount : ℚ) / (reps : ℚ) else 0))
  vertices := match a.exampleSolution with
    | some xs => .nodes xs
    | none => .pynone
  total_time := a.times.sum
  average_repetition_time :=
    if 0 < a.times.length then a.times.sum / (a.times.length : ℚ) else 0
  success_probability := if 0 < reps then (a.scount : ℚ) / (reps : ℚ) else 0
  min_success_iteration := some (match a.itersC.min? with
    | some m => (m : Int)
    | none => -1)
  max_success_iteration := some (match a.itersC.max? with
    | some m => (m : Int)
    | none => -1)
  average_success_iteration := some (if 0 < a.itersC.length then
    ((a.itersC.map fun i => (i : ℚ)).sum / (a.itersC.length : ℚ)) else -1)
  average_iterations := if 0 < reps then
    (((a.itersC.map fun i => (i : ℚ)).sum +
      (a.cp : ℚ) * (((reps - a.itersC.length).toNat : ℚ))) / (reps : ℚ)) else 0
  iterations := a.cp
  iterations_percentage := a.pct
  repetitions := reps
  average_operations_count :=
    if 0 < a.opsL.length then ((a.opsL.map fun o => (o : ℚ)).sum / (a.opsL.length : ℚ)) else 0

/-- The record returned by the `kn == 0` branch (solver.py:294-313). -/
def knZeroRec (k : PyNum) (kn : Nat) (maxCp : Int) (maxPct : ℚ) (reps : Int) : SolutionRec :=
  ⟨k, kn, 1, true, .nodes [], 0, 0, 1, some 0, some 0, some 0, 0, maxCp, maxPct, reps, 0⟩

/-- The record returned by the `kn > n or n == 0` branch (solver.py:315-334);
its `vertices` is the untouched list of `len(check_points)` `None`s and its
iteration statistics are Python `None`. -/
def infeasibleRec (k : PyNum) (kn : Nat) (maxCp : Int) (maxPct : ℚ) (reps : Int)
    (numCps : Nat) : SolutionRec :=
  ⟨k, kn, 0, false, .nones numCps, 0, 0, 0, none, none, none, 0, maxCp, maxPct, reps, 0⟩

/-- What a `solve_at_checkpoints` call hands back: the degenerate branches
return a single Solution, the general path one Solution per checkpoint. -/
inductive CkOutcome where
  | single : SolutionRec → CkOutcome
  | perCheckpoint : List SolutionRec → CkOutcome
deriving DecidableEq

/-- Python `max(x :: xs)` of a nonempty list. -/
def listMax {α : Type} [LinearOrder α] (x : α) (xs : List α) : α := xs.foldl max x

/-- Conversion of one checkpoint entry (solver.py:288-292): when any entry of
the list is a float (`isF`), every entry is rescaled by
`int(check_point * max_combinations)`; otherwise entries are taken as ints. -/
def ckConvert (isF : Bool) (maxComb : Nat) (c : PyNum) : Int :=
  if isF then (c.mulNat maxComb).toInt else c.toInt

/-- The matching `iteration_percentages` entry (solver.py:288-292): the
original value when floats are present, else `check_point / max_combinations`. -/
def ckPct (isF : Bool) (maxComb : Nat) (c : PyNum) : ℚ :=
  if isF then c.toRat else c.toRat / (maxComb : ℚ)

/-- The initial per-checkpoint accumulators (solver.py:279-283): all counters
zero, all lists empty. -/
def ckAccs0 (cpsI : List Int) (pcts : List ℚ) : List CkptAcc :=
  (cpsI.zip pcts).map fun pr => (⟨pr.1, pr.2, 0, [], none, [], []⟩ : CkptAcc)

/-- The general path of `solve_at_checkpoints` (solver.py:336-431): run
`num_repetitions` repetitions of the trial loop up to `max(check_points)`
iterations each, then aggregate one Result Record per checkpoint. -/
def ckRun (g : Graph) (k : PyNum) (kn : Nat) (cpsI : List Int) (pcts : List ℚ)
    (maxCp : Int) (reps : Int) (numAttempts : Nat) (d : Nat → List Nat)
    (clock : Nat → ℚ) : List SolutionRec :=
  ((repsLoop g (Nat.choose g.nodes.length kn) numAttempts maxCp.toNat d clock
      reps.toNat ⟨ckAccs0 cpsI pcts, 0, 0⟩).accs).map (mkRecord k kn reps)

/-- `ISDPSolver.solve_at_checkpoints` (solver.py:269-435).  Inputs mirror the
call: graph, `k`, the checkpoint list (ints, or fractions of `C(n, kn)` —
if any entry is a float, all are rescaled), `num_repetitions`, `num_attempts`,
plus the draw and clock streams.  `max()` of an empty checkpoint list raises
ValueError before anything else observable happens. -/
def solve_at_checkpoints (g : Graph) (k : PyNum) (cps : List PyNum) (reps : Int)
    (numAttempts : Nat) (d : Nat → List Nat) (clock : Nat → ℚ) : Except PyErr CkOutcome :=
  let kn := adjust_k g k
  let n := g.nodes.length
  let maxComb := Nat.choose n kn
  let isF := cps.any PyNum.isFloat
  let cpsI : List Int := cps.map (ckConvert isF maxComb)
  let pcts : List ℚ := cps.map (ckPct isF maxComb)
  match cpsI, pcts with
  | cI :: csI, p :: ps =>
    let maxCp := listMax cI csI
    let maxPct := listMax p ps
    if kn = 0 then .ok (.single (knZeroRec k kn maxCp maxPct reps))
    else if n < kn ∨ n = 0 then .ok (.single (infeasibleRec k kn maxCp maxPct reps cps.length))
    else .ok (.perCheckpoint (ckRun g k kn cpsI pcts maxCp reps numAttempts d clock))
  | _, _ => .error .valueError

/-- The records carried by an outcome. -/
def CkOutcome.records : CkOutcome → List SolutionRec
  | .single r => [r]
  | .perCheckpoint rs => rs

/-- One repetition of `solve`'s inner loop (solver.py:197-226): same exhaustion
check, draw, ledger retry and independence check as the checkpointed loop; on
success it records `iteration + 1` and the witness and breaks.  Returns the
final cumulative operations, draw position, and the success data if any. -/
def solveRepLoop (g : Graph) (maxComb numAttempts : Nat) (d : Nat → List Nat) :
    Nat → Nat → Finset (Finset Nat) → Nat → Nat → Nat × Nat × Option (Nat × List Nat)
  | 0, _, _, ops, dIdx => (ops, dIdx, none)
  | fuel + 1, it, ledger, ops, dIdx =>
    if ledger.card = maxComb then (ops, dIdx, none)
    else
      let t := attemptLoop d numAttempts (d dIdx) ledger (dIdx + 1)
      let c := outerLoop g t.1 (ops + g.nodes.length) true
      if c.2 then (c.1 + 1, t.2.2, some (it + 1, t.1))
      else solveRepLoop g maxComb numAttempts d fuel (it + 1) t.2.1 (c.1 + 1) t.2.2

/-- `solve`'s repetition loop (solver.py:195-226): global success count,
list of success iterations, last witness, and cumulative operations shared
across repetitions; each repetition gets a fresh ledger. -/
def solveRepsLoop (g : Graph) (maxComb numAttempts budget : Nat) (d : Nat → List Nat) :
    Nat → Nat × List Nat × Option (List Nat) × Nat × Nat →
    Nat × List Nat × Option (List Nat) × Nat × Nat
  | 0, s => s
  | r + 1, (scount, itersC, ex, ops, dIdx) =>
    match solveRepLoop g maxComb numAttempts d budget 0 ∅ ops dIdx with
    | (ops1, dIdx1, some (itSucc, sel)) =>
      solveRepsLoop g maxComb numAttempts budget d r
        (scount + 1, itersC ++ [itSucc], some sel, ops1, dIdx1)
    | (ops1, dIdx1, none) =>
      solveRepsLoop g maxComb numAttempts budget d r (scount, itersC, ex, ops1, dIdx1)

/-- `ISDPSolver.solve` (solver.py:133-267).  The `kn == 0` and
`kn > n or n == 0` branches (solver.py:155-193) call `Solution(...)` without
the required `average_operations_count` argument, so Python raises TypeError
there; and with `num_repetitions == 0` the unguarded
`operations_count / num_repetitions` (solver.py:243) raises ZeroDivisionError
after the loop.  The clock is read at stream positions 0 (start) and 1 (end). -/
def solve (g : Graph) (k : PyNum) (numIterations : PyNum) (reps : Int)
    (numAttempts : Nat) (d : Nat → List Nat) (clock : Nat → ℚ) : Except PyErr SolutionRec :=
  let kn := adjust_k g k
  let n := g.nodes.length
  let maxComb := Nat.choose n kn
  let ni : Int := match numIterations with
    | .pfloat q => max (truncQ (q * maxComb)) 10
    | .pint i => i
  let pct : ℚ := match numIterations with
    | .pfloat q => q
    | .pint i => (i : ℚ) / (maxComb : ℚ)
  if kn = 0 then .error .typeError
  else if n < kn ∨ n = 0 then .error .typeError
  else
    let fin := solveRepsLoop g maxComb numAttempts ni.toNat d reps.toNat (0, [], none, 0, 0)
    let scount := fin.1
    let itersC := fin.2.1
    let ex := fin.2.2.1
    let ops := fin.2.2.2.1
    if reps = 0 then .error .zeroDivisionError
    else
      let totalTime := clock 1 - clock 0
      .ok ⟨k, kn, scount,
        decide (0 < (if 0 < reps then (scount : ℚ) / (reps : ℚ) else 0)),
        (match ex with | some xs => .nodes xs | none => .pynone),
        totalTime,
        (if 0 < reps then totalTime / (reps : ℚ) else 0),
        (if 0 < reps then (scount : ℚ) / (reps : ℚ) else 0),
        some (match itersC.min? with | some m => (m : Int) | none => -1),
        some (match itersC.max? with | some m => (m : Int) | none => -1),
        some (if 0 < itersC.length then
          ((itersC.map fun i => (i : ℚ)).sum / (itersC.length : ℚ)) else -1),
        (if 0 < reps then
          (((itersC.map fun i => (i : ℚ)).sum +
            (ni : ℚ) * (((reps - itersC.length).toNat : ℚ))) / (reps : ℚ)) else 0),
        ni, pct, reps, (ops : ℚ) / (reps : ℚ)⟩

/-- A drawn subset has no two adjacent members (each unordered pair once, in
list order). -/
def NoEdgePairwise (g : Graph) (sel : List Nat) : Prop :=
  sel.Pairwise fun u v => g.hasEdge u v = false

/-- Forget a checkpoint accumulator's elapsed-time snapshots (they are the only
clock-dependent data). -/
def eraseA (a : CkptAcc) : CkptAcc :=
  ⟨a.cp, a.pct, a.scount, a.itersC, a.exampleSolution, [], a.opsL⟩

/-- The (checkpoint budget, success count) projection of the accumulators. -/
def accsCnt (l : List CkptAcc) : List (Int × Nat) := l.map fun a => (a.cp, a.scount)

/-- Larger checkpoint budgets never have smaller success counts. -/
def MonCnt (l : List (Int × Nat)) : Prop :=
  ∀ p ∈ l, ∀ q ∈ l, p.1 ≤ q.1 → p.2 ≤ q.2

/-- A valid witness: exactly `kn` distinct nodes of the graph, pairwise
non-adjacent. -/
def ValidW (g : Graph) (kn : Nat) (xs : List Nat) : Prop :=
  xs.length = kn ∧ xs.Nodup ∧ (∀ x ∈ xs, x ∈ g.nodes) ∧ NoEdgePairwise g xs

/-- The contract of `random.sample(nodes, kn)`: every draw of the stream is a
list of `kn` distinct members of the node set. -/
def DrawsValid (g : Graph) (kn : Nat) (d : Nat → List Nat) : Prop :=
  ∀ i, (d i).length = kn ∧ (d i).Nodup ∧ ∀ x ∈ d i, x ∈ g.nodes

/-- Every stored example solution is a valid witness. -/
def ExInv (g : Graph) (kn : Nat) (l : List CkptAcc) : Prop :=
  ∀ a ∈ l, ∀ xs, a.exampleSolution = some xs → ValidW g kn xs

/-- Relation between a checkpoint accumulator at the start of a repetition
(`b`) and the same accumulator while the repetition is at iteration `t`
(`a`): the budget is unchanged, operations and time snapshots stay paired,
at most one snapshot has been added, and a snapshot can only have been added
by a checkpoint boundary already passed. -/
def SnapRel (t : Int) (b a : CkptAcc) : Prop :=
  a.cp = b.cp ∧ a.opsL.length = a.times.length ∧
    a.opsL.length ≤ b.opsL.length + 1 ∧ (b.opsL.length < a.opsL.length → a.cp ≤ t)

/-- Relation between a checkpoint accumulator at the start and at the end of
one repetition: budget unchanged, snapshots paired, at most one added. -/
def SnapRelFin (b a : CkptAcc) : Prop :=
  a.cp = b.cp ∧ a.opsL.length = a.times.length ∧ a.opsL.length ≤ b.opsL.length + 1

/-- The clock-independent part of a repetition state (the repetition start
time is dropped and the accumulators' time lists erased). -/
def stCore (st : RepState) : List CkptAcc × Finset (Finset Nat) × Nat × Nat × Nat :=
  (st.accs.map eraseA, st.ledger, st.ops, st.dIdx, st.cIdx)

/-- The clock-independent part of an iteration result. -/
def outCore (o : StepOut) : Bool × List CkptAcc × Finset (Finset Nat) × Nat × Nat × Nat :=
  match o with
  | .succ s => (true, stCore s)
  | .cont s => (false, stCore s)

/-- The clock-independent part of the cross-repetition state. -/
def sessCore (s : SessSt) : List CkptAcc × Nat × Nat := (s.accs.map eraseA, s.dIdx, s.cIdx)

/-- Erase the clock-derived fields of a Result Record. -/
def eraseR (r : SolutionRec) : SolutionRec :=
  ⟨r.k, r.kn, r.success_count, r.success, r.vertices, 0, 0, r.success_probability,
    r.min_success_iteration, r.max_success_iteration, r.average_success_iteration,
    r.average_iterations, r.iterations, r.iterations_percentage, r.repetitions,
    r.average_operations_count⟩

/-- Erase the clock-derived fields of a whole call result. -/
def eraseExc (e : Except PyErr CkOutcome) : Except PyErr CkOutcome :=
  match e with
  | .error er => .error er
  | .ok (.single r) => .ok (.single (eraseR r))
  | .ok (.perCheckpoint rs) => .ok (.perCheckpoint (rs.map eraseR))

/-- The empty graph. -/
def gW0 : Graph := Graph.ofEdges [] []

/-- One isolated node. -/
def gW1 : Graph := Graph.ofEdges [0] []

/-- Two adjacent nodes (complete graph on 2 nodes). -/
def gW2K : Graph := Graph.ofEdges [0, 1] [(0, 1)]

/-- Three nodes with the single edge 0-1. -/
def gW3 : Graph := Graph.ofEdges [0, 1, 2] [(0, 1)]

/-- Three isolated nodes. -/
def gW3e : Graph := Graph.ofEdges [0, 1, 2] []

/-- The complete graph on 4 nodes. -/
def gW4K : Graph :=
  Graph.ofEdges [0, 1, 2, 3] [(0, 1), (0, 2), (0, 3), (1, 2), (1, 3), (2, 3)]

/-- Five isolated nodes. -/
def gW5 : Graph := Graph.ofEdges [0, 1, 2, 3, 4] []

/-- A draw stream that always returns `[0]`. -/
def dW0 : Nat → List Nat := fun _ => [0]

/-- A draw stream that always returns `[0, 1]`. -/
def dW01 : Nat → List Nat := fun _ => [0, 1]

/-- A clock frozen at 0. -/
def cW0 : Nat → ℚ := fun _ => 0

/-- A clock advancing by 1 per reading. -/
def cWI : Nat → ℚ := fun i => (i : ℚ)

/-- A repetition state about to run its trials on `gW2K` with checkpoint 5
(as built by `repsLoop` for the first repetition under `cW0`). -/
def stC2 : RepState := ⟨[⟨5, 5, 0, [], none, [], []⟩], ∅, 0, 0, 1, 0⟩

/-- A repetition state whose ledger already holds the subset `{0, 1}`. -/
def stC4 : RepState := ⟨[], {({0, 1} : Finset Nat)}, 0, 0, 0, 0⟩

/-- The record `solve_at_checkpoints gW2K (pint 1) [pint 5] 1 10 dW01 cW0`
reports for its only checkpoint. -/
def rC2 : SolutionRec :=
  ⟨.pint 1, 2, 0, false, .pynone, 0, 0, 0, some (-1), some (-1), some (-1), 5, 5, 5, 1, 0⟩

/-- The record `solve_at_checkpoints gW1 (pint 1) [pint 3] 0 10 dW0 cW0`
reports for its only checkpoint. -/
def rC7 : SolutionRec :=
  ⟨.pint 1, 1, 0, false, .pynone, 0, 0, 0, some (-1), some (-1), some (-1), 0, 3, 3, 0, 0⟩

/-- The record `solve_at_checkpoints gW1 (pint 1) [pint 1] 1 10 dW0 cW0`
reports for its only checkpoint. -/
def rC9 : SolutionRec :=
  ⟨.pint 1, 1, 1, true, .nodes [0], 0, 0, 1, some 1, some 1, some 1, 1, 1, 1, 1, 2⟩

/-- The two records `solve_at_checkpoints gW1 (pint 1) [pint 1, pint 2] 1 1 dW0 cW0`
reports for its checkpoints 1 and 2. -/
def rC3a : SolutionRec :=
  ⟨.pint 1, 1, 1, true, .nodes [0], 0, 0, 1, some 1, some 1, some 1, 1, 1, 1, 1, 2⟩

/-- See `rC3a`: the checkpoint-2 record of the same call. -/
def rC3b : SolutionRec :=
  ⟨.pint 1, 1, 1, true, .nodes [0], 0, 0, 1, some 1, some 1, some 1, 1, 2, 2, 1, 2⟩

/- ===========================================================================
Theorems.
=========================================================================== -/

theorem innerLoop_fst (g : Graph) (u : Nat) :
    ∀ (vs : List Nat) (ops : Nat) (ind : Bool),
      (innerLoop g u vs ops ind).1 = ops + (rowStop g u vs).length := by
  intro vs
  induction vs with
  | nil => intro ops ind; simp [innerLoop, rowStop]
  | cons v vs ih =>
    intro ops ind
    by_cases h : g.hasEdge u v
    · simp [innerLoop, rowStop, h]
    · simp only [innerLoop, rowStop, h, if_neg, Bool.false_eq_true, ite_false, ih,
        List.length_cons]
      omega

theorem innerLoop_snd (g : Graph) (u : Nat) :
    ∀ (vs : List Nat) (ops : Nat) (ind : Bool),
      (innerLoop g u vs ops ind).2 = (ind && !(vs.any fun v => g.hasEdge u v)) := by
  intro vs
  induction vs with
  | nil => intro ops ind; simp [innerLoop]
  | cons v vs ih =>
    intro ops ind
    by_cases h : g.hasEdge u v
    · simp [innerLoop, h]
    · simp [innerLoop, h, ih]

theorem outerLoop_fst (g : Graph) :
    ∀ (sel : List Nat) (ops : Nat) (ind : Bool),
      (outerLoop g sel ops ind).1 = ops + (rowsExamined g sel).length := by
  intro sel
  induction sel with
  | nil => intro ops ind; simp [outerLoop, rowsExamined]
  | cons u rest ih =>
    intro ops ind
    simp only [outerLoop, ih, innerLoop_fst, rowsExamined, List.length_append]
    omega

theorem outerLoop_snd (g : Graph) :
    ∀ (sel : List Nat) (ops : Nat) (ind : Bool),
      (outerLoop g sel ops ind).2 = true ↔ (ind = true ∧ NoEdgePairwise g sel) := by
  intro sel
  induction sel with
  | nil =>
    intro ops ind
    simp [outerLoop, NoEdgePairwise]
  | cons u rest ih =>
    intro ops ind
    simp only [outerLoop, ih, innerLoop_snd, NoEdgePairwise, List.pairwise_cons,
      Bool.and_eq_true, Bool.not_eq_true', List.any_eq_false]
    constructor
    · rintro ⟨⟨hi, hall⟩, hp⟩
      exact ⟨hi, fun v hv => Bool.eq_false_iff.mpr (hall v hv), hp⟩
    · rintro ⟨hi, hall, hp⟩
      exact ⟨⟨hi, fun v hv => Bool.eq_false_iff.mp (hall v hv)⟩, hp⟩

theorem attemptLoop_dIdx_le (d : Nat → List Nat) :
    ∀ (fuel : Nat) (sel : List Nat) (ledger : Finset (Finset Nat)) (dIdx : Nat),
      (attemptLoop d fuel sel ledger dIdx).2.2 ≤ dIdx + fuel := by
  intro fuel
  induction fuel with
  | zero => intro sel ledger dIdx; simp [attemptLoop]
  | succ fuel ih =>
    intro sel ledger dIdx
    by_cases h : sel.toFinset ∈ ledger
    · simp only [attemptLoop, h, if_pos]
      calc (attemptLoop d fuel (d dIdx) ledger (dIdx + 1)).2.2 ≤ dIdx + 1 + fuel :=
            ih (d dIdx) ledger (dIdx + 1)
        _ = dIdx + (fuel + 1) := by omega
    · simp [attemptLoop, h]

theorem attemptLoop_sel_mem (d : Nat → List Nat) :
    ∀ (fuel : Nat) (sel : List Nat) (ledger : Finset (Finset Nat)) (dIdx : Nat),
      (attemptLoop d fuel sel ledger dIdx).1 = sel ∨
        ∃ j, (attemptLoop d fuel sel ledger dIdx).1 = d j := by
  intro fuel
  induction fuel with
  | zero => intro sel ledger dIdx; simp [attemptLoop]
  | succ fuel ih =>
    intro sel ledger dIdx
    by_cases h : sel.toFinset ∈ ledger
    · simp only [attemptLoop, h, if_pos]
      rcases ih (d dIdx) ledger (dIdx + 1) with h1 | ⟨j, hj⟩
      · exact Or.inr ⟨dIdx, h1⟩
      · exact Or.inr ⟨j, hj⟩
    · simp [attemptLoop, h]

theorem snapSuccess_cnt (clock : Nat → ℚ) (it : Nat) (sel : List Nat) (ops : Nat) (start : ℚ) :
    ∀ (accs : List CkptAcc) (ci : Nat),
      ((snapSuccess clock it sel ops start accs ci).1).map (fun a => (a.cp, a.scount)) =
        accs.map (fun a => (a.cp, if (it : Int) < a.cp then a.scount + 1 else a.scount)) := by
  intro accs
  induction accs with
  | nil => intro ci; simp [snapSuccess]
  | cons a rest ih =>
    intro ci
    by_cases h : (it : Int) < a.cp
    · simp [snapSuccess, h, ih]
    · simp [snapSuccess, h, ih]

theorem snapFail_cnt (clock : Nat → ℚ) (it : Nat) (ops : Nat) (start : ℚ) :
    ∀ (accs : List CkptAcc) (ci : Nat),
      ((snapFail clock it ops start accs ci).1).map (fun a => (a.cp, a.scount)) =
        accs.map (fun a => (a.cp, a.scount)) := by
  intro accs
  induction accs with
  | nil => intro ci; simp [snapFail]
  | cons a rest ih =>
    intro ci
    by_cases h : a.cp = (it : Int) + 1
    · simp [snapFail, h]
    · simp [snapFail, h, ih]

theorem snapSuccess_ex (clock : Nat → ℚ) (it : Nat) (sel : List Nat) (ops : Nat) (start : ℚ) :
    ∀ (accs : List CkptAcc) (ci : Nat),
      ((snapSuccess clock it sel ops start accs ci).1).map (fun a => a.exampleSolution) =
        accs.map (fun a => if (it : Int) < a.cp then some sel else a.exampleSolution) := by
  intro accs
  induction accs with
  | nil => intro ci; simp [snapSuccess]
  | cons a rest ih =>
    intro ci
    by_cases h : (it : Int) < a.cp
    · simp [snapSuccess, h, ih]
    · simp [snapSuccess, h, ih]

theorem snapFail_ex (clock : Nat → ℚ) (it : Nat) (ops : Nat) (start : ℚ) :
    ∀ (accs : List CkptAcc) (ci : Nat),
      ((snapFail clock it ops start accs ci).1).map (fun a => a.exampleSolution) =
        accs.map (fun a => a.exampleSolution) := by
  intro accs
  induction accs with
  | nil => intro ci; simp [snapFail]
  | cons a rest ih =>
    intro ci
    by_cases h : a.cp = (it : Int) + 1
    · simp [snapFail, h]
    · simp [snapFail, h, ih]

theorem snapSuccess_erase (it : Nat) (sel : List Nat) (ops : Nat) :
    ∀ (accs1 accs2 : List CkptAcc) (c1 c2 : Nat → ℚ) (st1 st2 : ℚ) (ci : Nat),
      accs1.map eraseA = accs2.map eraseA →
      ((snapSuccess c1 it sel ops st1 accs1 ci).1).map eraseA =
          ((snapSuccess c2 it sel ops st2 accs2 ci).1).map eraseA ∧
        (snapSuccess c1 it sel ops st1 accs1 ci).2 =
          (snapSuccess c2 it sel ops st2 accs2 ci).2 := by
  intro accs1
  induction accs1 with
  | nil =>
    intro accs2 c1 c2 st1 st2 ci h
    rw [List.map_nil, eq_comm, List.map_eq_nil_iff] at h
    subst h
    simp [snapSuccess]
  | cons a rest ih =>
    intro accs2 c1 c2 st1 st2 ci h
    match accs2 with
    | [] => simp at h
    | b :: rest2 =>
      simp only [List.map_cons, List.cons.injEq] at h
      obtain ⟨hab, hrest⟩ := h
      simp only [eraseA, CkptAcc.mk.injEq, and_true] at hab
      obtain ⟨hcp, hpct, hs, hit, hex, hop⟩ := hab
      by_cases hlt : (it : Int) < a.cp
      · have hlt2 : (it : Int) < b.cp := hcp ▸ hlt
        have hr := ih rest2 c1 c2 st1 st2 (ci + 1) hrest
        simp only [snapSuccess, if_pos hlt, if_pos hlt2, List.map_cons]
        refine ⟨?_, hr.2⟩
        rw [hr.1]
        simp [eraseA, hcp, hpct, hs, hit, hop]
      · have hlt2 : ¬ (it : Int) < b.cp := hcp ▸ hlt
        have hr := ih rest2 c1 c2 st1 st2 ci hrest
        simp only [snapSuccess, if_neg hlt, if_neg hlt2, List.map_cons]
        refine ⟨?_, hr.2⟩
        rw [hr.1]
        simp [eraseA, hcp, hpct, hs, hit, hex, hop]

theorem snapFail_erase (it : Nat) (ops : Nat) :
    ∀ (accs1 accs2 : List CkptAcc) (c1 c2 : Nat → ℚ) (st1 st2 : ℚ) (ci : Nat),
      accs1.map eraseA = accs2.map eraseA →
      ((snapFail c1 it ops st1 accs1 ci).1).map eraseA =
          ((snapFail c2 it ops st2 accs2 ci).1).map eraseA ∧
        (snapFail c1 it ops st1 accs1 ci).2 = (snapFail c2 it ops st2 accs2 ci).2 := by
  intro accs1
  induction accs1 with
  | nil =>
    intro accs2 c1 c2 st1 st2 ci h
    rw [List.map_nil, eq_comm, List.map_eq_nil_iff] at h
    subst h
    simp [snapFail]
  | cons a rest ih =>
    intro accs2 c1 c2 st1 st2 ci h
    match accs2 with
    | [] => simp at h
    | b :: rest2 =>
      simp only [List.map_cons, List.cons.injEq] at h
      obtain ⟨hab, hrest⟩ := h
      simp only [eraseA, CkptAcc.mk.injEq, and_true] at hab
      obtain ⟨hcp, hpct, hs, hit, hex, hop⟩ := hab
      by_cases heq : a.cp = (it : Int) + 1
      · have heq2 : b.cp = (it : Int) + 1 := hcp ▸ heq
        simp only [snapFail, if_pos heq, if_pos heq2, List.map_cons]
        refine ⟨?_, by simp⟩
        rw [hrest]
        simp [eraseA, hcp, hpct, hs, hit, hex, hop]
      · have heq2 : ¬ b.cp = (it : Int) + 1 := hcp ▸ heq
        have hr := ih rest2 c1 c2 st1 st2 ci hrest
        simp only [snapFail, if_neg heq, if_neg heq2, List.map_cons]
        refine ⟨?_, hr.2⟩
        rw [hr.1]
        simp [eraseA, hcp, hpct, hs, hit, hex, hop]

theorem adjust_k_le (g : Graph) (k : PyNum) : adjust_k g k ≤ g.nodes.length := by
  unfold adjust_k
  have h : min (max 0 ((k.mulNat g.nodes.length).toInt)) (g.nodes.length : Int) ≤
      (g.nodes.length : Int) := min_le_right _ _
  omega

theorem adjust_k_zero_of_no_nodes (g : Graph) (k : PyNum) (h : g.nodes.length = 0) :
    adjust_k g k = 0 := by
  have := adjust_k_le g k
  omega

theorem sac_perCheckpoint_inv (g : Graph) (k : PyNum) (cps : List PyNum) (reps : Int)
    (na : Nat) (d : Nat → List Nat) (clock : Nat → ℚ) (rs : List SolutionRec)
    (h : solve_at_checkpoints g k cps reps na d clock = .ok (.perCheckpoint rs)) :
    ∃ cpsI pcts maxCp,
      rs = ckRun g k (adjust_k g k) cpsI pcts maxCp reps na d clock := by
  match cps with
  | [] => simp [solve_at_checkpoints] at h
  | c0 :: crest =>
    simp only [solve_at_checkpoints, List.map_cons] at h
    split_ifs at h with h0 h1
    · simp at h
    · simp at h
    · injection h with h2
      injection h2 with h3
      exact ⟨_, _, _, h3.symm⟩

theorem monCnt_bump (it : Int) (l : List (Int × Nat)) (h : MonCnt l) :
    MonCnt (l.map fun p => (p.1, if it < p.1 then p.2 + 1 else p.2)) := by
  intro p hp q hq hle
  obtain ⟨p0, hp0, rfl⟩ := List.mem_map.mp hp
  obtain ⟨q0, hq0, rfl⟩ := List.mem_map.mp hq
  simp only at hle ⊢
  by_cases h1 : it < p0.1
  · rw [if_pos h1, if_pos (lt_of_lt_of_le h1 hle)]
    exact Nat.succ_le_succ (h p0 hp0 q0 hq0 hle)
  · rw [if_neg h1]
    by_cases h2 : it < q0.1
    · rw [if_pos h2]
      exact Nat.le_succ_of_le (h p0 hp0 q0 hq0 hle)
    · rw [if_neg h2]
      exact h p0 hp0 q0 hq0 hle

theorem iterStep_monCnt (g : Graph) (na : Nat) (d : Nat → List Nat) (clock : Nat → ℚ)
    (it : Nat) (st : RepState) (h : MonCnt (accsCnt st.accs)) :
    MonCnt (accsCnt ((iterStep g na d clock it st).st.accs)) := by
  unfold iterStep
  by_cases hc : (outerLoop g (attemptLoop d na (d st.dIdx) st.ledger (st.dIdx + 1)).1
      (st.ops + g.nodes.length) true).2
  · simp only [hc, if_pos, StepOut.st]
    unfold accsCnt
    rw [snapSuccess_cnt]
    have : (st.accs.map fun a =>
        ((a.cp, if (it : Int) < a.cp then a.scount + 1 else a.scount) : Int × Nat)) =
        (accsCnt st.accs).map fun p => (p.1, if (it : Int) < p.1 then p.2 + 1 else p.2) := by
      unfold accsCnt
      rw [List.map_map]
      rfl
    rw [this]
    exact monCnt_bump _ _ h
  · simp only [hc, if_neg, Bool.false_eq_true, ite_false, StepOut.st]
    unfold accsCnt
    rw [snapFail_cnt]
    exact h

theorem repLoop_monCnt (g : Graph) (mc na : Nat) (d : Nat → List Nat) (clock : Nat → ℚ) :
    ∀ (fuel it : Nat) (st : RepState), MonCnt (accsCnt st.accs) →
      MonCnt (accsCnt ((repLoop g mc na d clock fuel it st).st.accs)) := by
  intro fuel
  induction fuel with
  | zero => intro it st h; exact h
  | succ fuel ih =>
    intro it st h
    unfold repLoop
    by_cases hx : st.ledger.card = mc
    · simp only [hx, if_pos]
      exact h
    · simp only [hx, if_neg, not_false_iff]
      have hs := iterStep_monCnt g na d clock it st h
      cases he : iterStep g na d clock it st with
      | succ st1 =>
        rw [he] at hs
        exact hs
      | cont st1 =>
        rw [he] at hs
        exact ih (it + 1) st1 hs

theorem repsLoop_monCnt (g : Graph) (mc na budget : Nat) (d : Nat → List Nat)
    (clock : Nat → ℚ) :
    ∀ (r : Nat) (s : SessSt), MonCnt (accsCnt s.accs) →
      MonCnt (accsCnt ((repsLoop g mc na budget d clock r s).accs)) := by
  intro r
  induction r with
  | zero => intro s h; exact h
  | succ r ih =>
    intro s h
    unfold repsLoop
    exact ih _ (repLoop_monCnt g mc na d clock budget 0 _ h)

theorem ckAccs0_monCnt (cpsI : List Int) (pcts : List ℚ) :
    MonCnt (accsCnt (ckAccs0 cpsI pcts)) := by
  intro p hp q hq _
  unfold accsCnt ckAccs0 at hp
  rw [List.map_map] at hp
  obtain ⟨p0, _, rfl⟩ := List.mem_map.mp hp
  simp

/-- C3: for records produced by one `solve_at_checkpoints` call (one trial
stream shared by all checkpoints), a strictly larger checkpoint budget never
reports a smaller success probability: a success recorded at checkpoint `c1`
is also recorded at every checkpoint `c2 > c1`, because the success branch
credits every checkpoint with `iteration < check_point`. -/
theorem C3_success_probability_monotone (g : Graph) (k : PyNum) (cps : List PyNum)
    (reps : Int) (na : Nat) (d : Nat → List Nat) (clock : Nat → ℚ)
    (rs : List SolutionRec)
    (h : solve_at_checkpoints g k cps reps na d clock = .ok (.perCheckpoint rs)) :
    ∀ r1 ∈ rs, ∀ r2 ∈ rs, r1.iterations < r2.iterations →
      r1.success_probability ≤ r2.success_probability := by
  obtain ⟨cpsI, pcts, maxCp, rfl⟩ := sac_perCheckpoint_inv g k cps reps na d clock rs h
  intro r1 hr1 r2 hr2 hlt
  unfold ckRun at hr1 hr2
  obtain ⟨a1, ha1, rfl⟩ := List.mem_map.mp hr1
  obtain ⟨a2, ha2, rfl⟩ := List.mem_map.mp hr2
  have hmon := repsLoop_monCnt g (Nat.choose g.nodes.length (adjust_k g k)) na maxCp.toNat
    d clock reps.toNat ⟨ckAccs0 cpsI pcts, 0, 0⟩ (ckAccs0_monCnt cpsI pcts)
  have hcnt : a1.scount ≤ a2.scount := by
    have h1 : ((a1.cp, a1.scount) : Int × Nat) ∈ accsCnt
        ((repsLoop g (Nat.choose g.nodes.length (adjust_k g k)) na maxCp.toNat d clock
          reps.toNat ⟨ckAccs0 cpsI pcts, 0, 0⟩).accs) :=
      List.mem_map.mpr ⟨a1, ha1, rfl⟩
    have h2 : ((a2.cp, a2.scount) : Int × Nat) ∈ accsCnt
        ((repsLoop g (Nat.choose g.nodes.length (adjust_k g k)) na maxCp.toNat d clock
          reps.toNat ⟨ckAccs0 cpsI pcts, 0, 0⟩).accs) :=
      List.mem_map.mpr ⟨a2, ha2, rfl⟩
    exact hmon _ h1 _ h2 (le_of_lt hlt)
  show (if 0 < reps then (a1.scount : ℚ) / (reps : ℚ) else 0) ≤
    (if 0 < reps then (a2.scount : ℚ) / (reps : ℚ) else 0)
  by_cases hr : 0 < reps
  · rw [if_pos hr, if_pos hr]
    have hrq : (0 : ℚ) < (reps : ℚ) := by exact_mod_cast hr
    rw [div_le_div_iff₀ hrq hrq]
    have : (a1.scount : ℚ) ≤ (a2.scount : ℚ) := by exact_mod_cast hcnt
    exact mul_le_mul_of_nonneg_right this (le_of_lt hrq)
  · rw [if_neg hr, if_neg hr]

theorem attemptLoop_valid (g : Graph) (kn : Nat) (d : Nat → List Nat)
    (hd : DrawsValid g kn d) (fuel : Nat) (i dIdx : Nat)
    (ledger : Finset (Finset Nat)) :
    (attemptLoop d fuel (d i) ledger dIdx).1.length = kn ∧
      (attemptLoop d fuel (d i) ledger dIdx).1.Nodup ∧
      ∀ x ∈ (attemptLoop d fuel (d i) ledger dIdx).1, x ∈ g.nodes := by
  rcases attemptLoop_sel_mem d fuel (d i) ledger dIdx with h | ⟨j, hj⟩
  · rw [h]; exact hd i
  · rw [hj]; exact hd j

theorem iterStep_exInv (g : Graph) (kn na : Nat) (d : Nat → List Nat) (clock : Nat → ℚ)
    (hd : DrawsValid g kn d) (it : Nat) (st : RepState)
    (h : ExInv g kn st.accs) :
    ExInv g kn ((iterStep g na d clock it st).st.accs) := by
  unfold iterStep
  by_cases hc : (outerLoop g (attemptLoop d na (d st.dIdx) st.ledger (st.dIdx + 1)).1
      (st.ops + g.nodes.length) true).2
  · simp only [hc, if_pos, StepOut.st]
    intro a ha xs hxs
    have hmap := snapSuccess_ex clock it
      (attemptLoop d na (d st.dIdx) st.ledger (st.dIdx + 1)).1
      ((outerLoop g (attemptLoop d na (d st.dIdx) st.ledger (st.dIdx + 1)).1
        (st.ops + g.nodes.length) true).1 + 1) st.start st.accs st.cIdx
    have hmem : a.exampleSolution ∈
        ((snapSuccess clock it (attemptLoop d na (d st.dIdx) st.ledger (st.dIdx + 1)).1
          ((outerLoop g (attemptLoop d na (d st.dIdx) st.ledger (st.dIdx + 1)).1
            (st.ops + g.nodes.length) true).1 + 1) st.start st.accs st.cIdx).1).map
          (fun a => a.exampleSolution) := List.mem_map.mpr ⟨a, ha, rfl⟩
    rw [hmap] at hmem
    obtain ⟨a0, ha0, hval⟩ := List.mem_map.mp hmem
    by_cases hlt : (it : Int) < a0.cp
    · rw [if_pos hlt] at hval
      rw [← hval] at hxs
      injection hxs with hxs
      subst hxs
      obtain ⟨hl, hn, hm⟩ := attemptLoop_valid g kn d hd na st.dIdx (st.dIdx + 1) st.ledger
      refine ⟨hl, hn, hm, ?_⟩
      exact ((outerLoop_snd g _ _ _).mp hc).2
    · rw [if_neg hlt] at hval
      rw [← hval] at hxs
      exact h a0 ha0 xs hxs
  · simp only [hc, if_neg, Bool.false_eq_true, ite_false, StepOut.st]
    intro a ha xs hxs
    have hmap := snapFail_ex clock it
      ((outerLoop g (attemptLoop d na (d st.dIdx) st.ledger (st.dIdx + 1)).1
        (st.ops + g.nodes.length) true).1 + 1) st.start st.accs st.cIdx
    have hmem : a.exampleSolution ∈
        ((snapFail clock it
          ((outerLoop g (attemptLoop d na (d st.dIdx) st.ledger (st.dIdx + 1)).1
            (st.ops + g.nodes.length) true).1 + 1) st.start st.accs st.cIdx).1).map
          (fun a => a.exampleSolution) := List.mem_map.mpr ⟨a, ha, rfl⟩
    rw [hmap] at hmem
    obtain ⟨a0, ha0, hval⟩ := List.mem_map.mp hmem
    rw [← hval] at hxs
    exact h a0 ha0 xs hxs

theorem repLoop_exInv (g : Graph) (kn mc na : Nat) (d : Nat → List Nat) (clock : Nat → ℚ)
    (hd : DrawsValid g kn d) :
    ∀ (fuel it : Nat) (st : RepState), ExInv g kn st.accs →
      ExInv g kn ((repLoop g mc na d clock fuel it st).st.accs) := by
  intro fuel
  induction fuel with
  | zero => intro it st h; exact h
  | succ fuel ih =>
    intro it st h
    unfold repLoop
    by_cases hx : st.ledger.card = mc
    · simp only [hx, if_pos]
      exact h
    · simp only [hx, if_neg, not_false_iff]
      have hs := iterStep_exInv g kn na d clock hd it st h
      cases he : iterStep g na d clock it st with
      | succ st1 =>
        rw [he] at hs
        exact hs
      | cont st1 =>
        rw [he] at hs
        exact ih (it + 1) st1 hs

theorem repsLoop_exInv (g : Graph) (kn mc na budget : Nat) (d : Nat → List Nat)
    (clock : Nat → ℚ) (hd : DrawsValid g kn d) :
    ∀ (r : Nat) (s : SessSt), ExInv g kn s.accs →
      ExInv g kn ((repsLoop g mc na budget d clock r s).accs) := by
  intro r
  induction r with
  | zero => intro s h; exact h
  | succ r ih =>
    intro s h
    unfold repsLoop
    exact ih _ (repLoop_exInv g kn mc na d clock hd budget 0 _ h)

theorem ckAccs0_exInv (g : Graph) (kn : Nat) (cpsI : List Int) (pcts : List ℚ) :
    ExInv g kn (ckAccs0 cpsI pcts) := by
  intro a ha xs hxs
  unfold ckAccs0 at ha
  obtain ⟨p0, _, rfl⟩ := List.mem_map.mp ha
  simp at hxs

theorem sac_single_inv (g : Graph) (k : PyNum) (cps : List PyNum) (reps : Int)
    (na : Nat) (d : Nat → List Nat) (clock : Nat → ℚ) (r : SolutionRec)
    (h : solve_at_checkpoints g k cps reps na d clock = .ok (.single r)) :
    ∃ maxCp maxPct,
      (adjust_k g k = 0 ∧ r = knZeroRec k (adjust_k g k) maxCp maxPct reps) ∨
        r = infeasibleRec k (adjust_k g k) maxCp maxPct reps cps.length := by
  match cps with
  | [] => simp [solve_at_checkpoints] at h
  | c0 :: crest =>
    simp only [solve_at_checkpoints, List.map_cons] at h
    split_ifs at h with h0 h1
    · injection h with h2
      injection h2 with h3
      exact ⟨_, _, Or.inl ⟨h0, h3.symm⟩⟩
    · injection h with h2
      injection h2 with h3
      exact ⟨_, _, Or.inr h3.symm⟩
    · simp at h

/-- C9: whenever a Result Record produced by `solve_at_checkpoints` reports a
witness subset, that subset has exactly `kn` distinct nodes (with `kn` the
resolved subset size) and no two of its nodes are adjacent per `has_edge`;
the draw stream is assumed to satisfy the `random.sample` contract. -/
theorem C9_witness_validity (g : Graph) (k : PyNum) (cps : List PyNum) (reps : Int)
    (na : Nat) (d : Nat → List Nat) (clock : Nat → ℚ) (out : CkOutcome)
    (hd : DrawsValid g (adjust_k g k) d)
    (h : solve_at_checkpoints g k cps reps na d clock = .ok out) :
    ∀ r ∈ out.records, ∀ ws, r.vertices = .nodes ws →
      ws.length = adjust_k g k ∧ ws.Nodup ∧
        ∀ u ∈ ws, ∀ v ∈ ws, u ≠ v → g.hasEdge u v = false := by
  intro r hr ws hws
  match out with
  | .single r0 =>
    have hr0 : r = r0 := by simpa [CkOutcome.records] using hr
    subst hr0
    obtain ⟨maxCp, maxPct, hca⟩ := sac_single_inv g k cps reps na d clock r h
    rcases hca with ⟨h0, rfl⟩ | rfl
    · have hws0 : ws = [] := by
        have : VerticesVal.nodes ([] : List Nat) = .nodes ws := hws
        injection this with h2
        exact h2.symm
      subst hws0
      refine ⟨by simpa using h0.symm, List.nodup_nil, ?_⟩
      intro u hu
      simp at hu
    · simp [infeasibleRec] at hws
  | .perCheckpoint rs =>
    obtain ⟨cpsI, pcts, maxCp, rfl⟩ := sac_perCheckpoint_inv g k cps reps na d clock rs h
    have hr2 : r ∈ ckRun g k (adjust_k g k) cpsI pcts maxCp reps na d clock := by
      simpa [CkOutcome.records] using hr
    unfold ckRun at hr2
    obtain ⟨a, ha, rfl⟩ := List.mem_map.mp hr2
    have hinv := repsLoop_exInv g (adjust_k g k)
      (Nat.choose g.nodes.length (adjust_k g k)) na maxCp.toNat d clock hd reps.toNat
      ⟨ckAccs0 cpsI pcts, 0, 0⟩ (ckAccs0_exInv g (adjust_k g k) cpsI pcts)
    have hvert : (mkRecord k (adjust_k g k) reps a).vertices =
        (match a.exampleSolution with
          | some xs => VerticesVal.nodes xs
          | none => VerticesVal.pynone) := rfl
    match hex : a.exampleSolution with
    | none =>
      rw [hvert, hex] at hws
      simp at hws
    | some xs =>
      rw [hvert, hex] at hws
      have hxs : xs = ws := by injection hws
      subst hxs
      obtain ⟨hl, hn, _, hp⟩ := hinv a ha xs hex
      refine ⟨hl, hn, ?_⟩
      intro u hu v hv huv
      have hsym : Symmetric (fun u v : Nat => g.hasEdge u v = false) := by
        intro x y hxy
        rw [g.edge_symm]
        exact hxy
      exact List.Pairwise.forall hsym hp hu hv huv

theorem snapRel_mono {t t' : Int} (h : t ≤ t') {b a : CkptAcc} (hr : SnapRel t b a) :
    SnapRel t' b a :=
  ⟨hr.1, hr.2.1, hr.2.2.1, fun hlt => le_trans (hr.2.2.2 hlt) h⟩

theorem snapRel_to_fin {t : Int} {b a : CkptAcc} (hr : SnapRel t b a) : SnapRelFin b a :=
  ⟨hr.1, hr.2.1, hr.2.2.1⟩

theorem snapFail_rel (clock : Nat → ℚ) (it : Nat) (ops : Nat) (start : ℚ) :
    ∀ {base accs : List CkptAcc}, List.Forall₂ (SnapRel (it : Int)) base accs →
      ∀ ci, List.Forall₂ (SnapRel ((it : Int) + 1)) base
        ((snapFail clock it ops start accs ci).1) := by
  intro base accs h
  induction h with
  | nil => intro ci; exact List.Forall₂.nil
  | @cons b a bs as hab htail ih =>
    intro ci
    by_cases heq : a.cp = (it : Int) + 1
    · simp only [snapFail, if_pos heq]
      refine List.Forall₂.cons ?_ (htail.imp fun x y hr => snapRel_mono (by omega) hr)
      obtain ⟨hcp, htie, hle, hcond⟩ := hab
      have hne : ¬ b.opsL.length < a.opsL.length := fun hlt => by
        have := hcond hlt
        omega
      refine ⟨hcp, ?_, ?_, ?_⟩
      · simp [htie]
      · simp only [List.length_append, List.length_cons, List.length_nil]
        omega
      · intro _
        simp [heq]
    · simp only [snapFail, if_neg heq]
      exact List.Forall₂.cons (snapRel_mono (by omega) hab) (ih ci)

theorem snapSuccess_relFin (clock : Nat → ℚ) (it : Nat) (sel : List Nat) (ops : Nat)
    (start : ℚ) :
    ∀ {base accs : List CkptAcc}, List.Forall₂ (SnapRel (it : Int)) base accs →
      ∀ ci, List.Forall₂ SnapRelFin base
        ((snapSuccess clock it sel ops start accs ci).1) := by
  intro base accs h
  induction h with
  | nil => intro ci; exact List.Forall₂.nil
  | @cons b a bs as hab htail ih =>
    intro ci
    by_cases hlt : (it : Int) < a.cp
    · simp only [snapSuccess, hlt, if_pos]
      refine List.Forall₂.cons ?_ (ih (ci + 1))
      obtain ⟨hcp, htie, hle, hcond⟩ := hab
      have hne : ¬ b.opsL.length < a.opsL.length := fun h2 => by
        have := hcond h2
        omega
      refine ⟨hcp, ?_, ?_⟩
      · simp [htie]
      · simp only [List.length_append, List.length_cons, List.length_nil]
        omega
    · simp only [snapSuccess, hlt, if_neg, not_false_iff]
      exact List.Forall₂.cons (snapRel_to_fin hab) (ih ci)

theorem iterStep_snapRel (g : Graph) (na : Nat) (d : Nat → List Nat) (clock : Nat → ℚ)
    (it : Nat) (st : RepState) (base : List CkptAcc)
    (h : List.Forall₂ (SnapRel (it : Int)) base st.accs) :
    (∀ st1, iterStep g na d clock it st = .succ st1 →
      List.Forall₂ SnapRelFin base st1.accs) ∧
    (∀ st1, iterStep g na d clock it st = .cont st1 →
      List.Forall₂ (SnapRel ((it : Int) + 1)) base st1.accs) := by
  unfold iterStep
  by_cases hc : (outerLoop g (attemptLoop d na (d st.dIdx) st.ledger (st.dIdx + 1)).1
      (st.ops + g.nodes.length) true).2
  · simp only [hc, if_pos]
    constructor
    · intro st1 he
      injection he with he
      rw [← he]
      exact snapSuccess_relFin clock it _ _ st.start h st.cIdx
    · intro st1 he
      exact absurd he (by simp)
  · simp only [hc, if_neg, Bool.false_eq_true, ite_false]
    constructor
    · intro st1 he
      exact absurd he (by simp)
    · intro st1 he
      injection he with he
      rw [← he]
      exact snapFail_rel clock it _ st.start h st.cIdx

theorem repLoop_snapRel (g : Graph) (mc na : Nat) (d : Nat → List Nat) (clock : Nat → ℚ)
    (base : List CkptAcc) :
    ∀ (fuel it : Nat) (st : RepState), List.Forall₂ (SnapRel (it : Int)) base st.accs →
      List.Forall₂ SnapRelFin base ((repLoop g mc na d clock fuel it st).st.accs) ∧
      ((repLoop g mc na d clock fuel it st).exit = .exhausted →
        (repLoop g mc na d clock fuel it st).trials < it + fuel) := by
  intro fuel
  induction fuel with
  | zero =>
    intro it st h
    refine ⟨h.imp fun x y hr => snapRel_to_fin hr, ?_⟩
    intro hx
    exact absurd hx (by simp [repLoop])
  | succ fuel ih =>
    intro it st h
    by_cases hx : st.ledger.card = mc
    · have heq2 : repLoop g mc na d clock (fuel + 1) it st = ⟨st, .exhausted, it⟩ := by
        conv_lhs => rw [repLoop]
        rw [if_pos hx]
      rw [heq2]
      refine ⟨h.imp fun x y hr => snapRel_to_fin hr, fun _ => ?_⟩
      show it < it + (fuel + 1)
      omega
    · have hs := iterStep_snapRel g na d clock it st base h
      cases he : iterStep g na d clock it st with
      | succ st1 =>
        have heq2 : repLoop g mc na d clock (fuel + 1) it st = ⟨st1, .succeeded, it + 1⟩ := by
          conv_lhs => rw [repLoop]
          rw [if_neg hx, he]
        rw [heq2]
        refine ⟨hs.1 st1 he, ?_⟩
        intro hx2
        exact absurd hx2 (by simp)
      | cont st1 =>
        have heq2 : repLoop g mc na d clock (fuel + 1) it st =
            repLoop g mc na d clock fuel (it + 1) st1 := by
          conv_lhs => rw [repLoop]
          rw [if_neg hx, he]
        rw [heq2]
        have hrec := ih (it + 1) st1 (by
          have := hs.2 st1 he
          simpa using this)
        refine ⟨hrec.1, ?_⟩
        intro hx2
        have := hrec.2 hx2
        omega

theorem iterStep_core (g : Graph) (na : Nat) (d : Nat → List Nat) (c1 c2 : Nat → ℚ)
    (it : Nat) (st1 st2 : RepState) (h : stCore st1 = stCore st2) :
    outCore (iterStep g na d c1 it st1) = outCore (iterStep g na d c2 it st2) := by
  simp only [stCore, Prod.mk.injEq] at h
  obtain ⟨haccs, hled, hops, hdid, hcid⟩ := h
  unfold iterStep
  rw [hdid, hled, hops, hcid]
  by_cases hc : (outerLoop g
      (attemptLoop d na (d st2.dIdx) st2.ledger (st2.dIdx + 1)).1
      (st2.ops + g.nodes.length) true).2
  · have hs := snapSuccess_erase it
      (attemptLoop d na (d st2.dIdx) st2.ledger (st2.dIdx + 1)).1
      ((outerLoop g (attemptLoop d na (d st2.dIdx) st2.ledger (st2.dIdx + 1)).1
        (st2.ops + g.nodes.length) true).1 + 1)
      st1.accs st2.accs c1 c2 st1.start st2.start st2.cIdx haccs
    simp only [hc, if_pos, outCore, stCore, Prod.mk.injEq, eq_self_iff_true, true_and,
      and_true]
    exact ⟨hs.1, hs.2⟩
  · have hs := snapFail_erase it
      ((outerLoop g (attemptLoop d na (d st2.dIdx) st2.ledger (st2.dIdx + 1)).1
        (st2.ops + g.nodes.length) true).1 + 1)
      st1.accs st2.accs c1 c2 st1.start st2.start st2.cIdx haccs
    simp only [hc, if_neg, Bool.false_eq_true, ite_false, outCore, stCore, Prod.mk.injEq,
      eq_self_iff_true, true_and, and_true]
    exact ⟨hs.1, hs.2⟩

theorem repLoop_core (g : Graph) (mc na : Nat) (d : Nat → List Nat) (c1 c2 : Nat → ℚ) :
    ∀ (fuel it : Nat) (st1 st2 : RepState), stCore st1 = stCore st2 →
      stCore ((repLoop g mc na d c1 fuel it st1).st) =
          stCore ((repLoop g mc na d c2 fuel it st2).st) ∧
        (repLoop g mc na d c1 fuel it st1).exit = (repLoop g mc na d c2 fuel it st2).exit ∧
        (repLoop g mc na d c1 fuel it st1).trials = (repLoop g mc na d c2 fuel it st2).trials := by
  intro fuel
  induction fuel with
  | zero =>
    intro it st1 st2 h
    exact ⟨h, rfl, rfl⟩
  | succ fuel ih =>
    intro it st1 st2 h
    have hled : st1.ledger = st2.ledger := by
      simp only [stCore, Prod.mk.injEq] at h
      exact h.2.1
    by_cases hx : st2.ledger.card = mc
    · have hx1 : st1.ledger.card = mc := by rw [hled]; exact hx
      have he1 : repLoop g mc na d c1 (fuel + 1) it st1 = ⟨st1, .exhausted, it⟩ := by
        conv_lhs => rw [repLoop]
        rw [if_pos hx1]
      have he2 : repLoop g mc na d c2 (fuel + 1) it st2 = ⟨st2, .exhausted, it⟩ := by
        conv_lhs => rw [repLoop]
        rw [if_pos hx]
      rw [he1, he2]
      exact ⟨h, rfl, rfl⟩
    · have hx1 : ¬ st1.ledger.card = mc := by rw [hled]; exact hx
      have hcore := iterStep_core g na d c1 c2 it st1 st2 h
      cases hs1 : iterStep g na d c1 it st1 with
      | succ t1 =>
        cases hs2 : iterStep g na d c2 it st2 with
        | succ t2 =>
          have he1 : repLoop g mc na d c1 (fuel + 1) it st1 = ⟨t1, .succeeded, it + 1⟩ := by
            conv_lhs => rw [repLoop]
            rw [if_neg hx1, hs1]
          have he2 : repLoop g mc na d c2 (fuel + 1) it st2 = ⟨t2, .succeeded, it + 1⟩ := by
            conv_lhs => rw [repLoop]
            rw [if_neg hx, hs2]
          rw [he1, he2]
          rw [hs1, hs2] at hcore
          simp only [outCore, Prod.mk.injEq, true_and] at hcore
          exact ⟨hcore, rfl, rfl⟩
        | cont t2 =>
          rw [hs1, hs2] at hcore
          simp [outCore] at hcore
      | cont t1 =>
        cases hs2 : iterStep g na d c2 it st2 with
        | succ t2 =>
          rw [hs1, hs2] at hcore
          simp [outCore] at hcore
        | cont t2 =>
          have he1 : repLoop g mc na d c1 (fuel + 1) it st1 =
              repLoop g mc na d c1 fuel (it + 1) t1 := by
            conv_lhs => rw [repLoop]
            rw [if_neg hx1, hs1]
          have he2 : repLoop g mc na d c2 (fuel + 1) it st2 =
              repLoop g mc na d c2 fuel (it + 1) t2 := by
            conv_lhs => rw [repLoop]
            rw [if_neg hx, hs2]
          rw [he1, he2]
          rw [hs1, hs2] at hcore
          simp only [outCore, Prod.mk.injEq, true_and] at hcore
          exact ih (it + 1) t1 t2 hcore

theorem repsLoop_core (g : Graph) (mc na budget : Nat) (d : Nat → List Nat)
    (c1 c2 : Nat → ℚ) :
    ∀ (r : Nat) (s1 s2 : SessSt), sessCore s1 = sessCore s2 →
      sessCore (repsLoop g mc na budget d c1 r s1) =
        sessCore (repsLoop g mc na budget d c2 r s2) := by
  intro r
  induction r with
  | zero => intro s1 s2 h; exact h
  | succ r ih =>
    intro s1 s2 h
    simp only [sessCore, Prod.mk.injEq] at h
    obtain ⟨haccs, hdid, hcid⟩ := h
    unfold repsLoop
    apply ih
    have hst : stCore ⟨s1.accs, ∅, 0, s1.dIdx, s1.cIdx + 1, c1 s1.cIdx⟩ =
        stCore ⟨s2.accs, ∅, 0, s2.dIdx, s2.cIdx + 1, c2 s2.cIdx⟩ := by
      simp only [stCore, Prod.mk.injEq, eq_self_iff_true, true_and, and_true]
      exact ⟨haccs, hdid, by rw [hcid]⟩
    have hcore := (repLoop_core g mc na d c1 c2 budget 0 _ _ hst).1
    simp only [stCore, Prod.mk.injEq] at hcore
    simp only [sessCore, Prod.mk.injEq]
    exact ⟨hcore.1, hcore.2.2.2⟩

theorem mkRecord_erase (k : PyNum) (kn : Nat) (reps : Int) (a1 a2 : CkptAcc)
    (h : eraseA a1 = eraseA a2) :
    eraseR (mkRecord k kn reps a1) = eraseR (mkRecord k kn reps a2) := by
  simp only [eraseA, CkptAcc.mk.injEq, and_true] at h
  obtain ⟨hcp, hpct, hs, hit, hex, hop⟩ := h
  simp only [eraseR, mkRecord, SolutionRec.mk.injEq, hcp, hpct, hs, hit, hex, hop]

theorem map_mkRecord_erase (k : PyNum) (kn : Nat) (reps : Int) :
    ∀ (l1 l2 : List CkptAcc), l1.map eraseA = l2.map eraseA →
      (l1.map (mkRecord k kn reps)).map eraseR = (l2.map (mkRecord k kn reps)).map eraseR := by
  intro l1
  induction l1 with
  | nil =>
    intro l2 h
    rw [List.map_nil, eq_comm, List.map_eq_nil_iff] at h
    subst h
    rfl
  | cons a rest ih =>
    intro l2 h
    match l2 with
    | [] => simp at h
    | b :: rest2 =>
      simp only [List.map_cons, List.cons.injEq] at h ⊢
      exact ⟨mkRecord_erase k kn reps a b h.1, ih rest2 h.2⟩

theorem ckRun_erase (g : Graph) (k : PyNum) (kn : Nat) (cpsI : List Int) (pcts : List ℚ)
    (maxCp : Int) (reps : Int) (na : Nat) (d : Nat → List Nat) (c1 c2 : Nat → ℚ) :
    (ckRun g k kn cpsI pcts maxCp reps na d c1).map eraseR =
      (ckRun g k kn cpsI pcts maxCp reps na d c2).map eraseR := by
  unfold ckRun
  apply map_mkRecord_erase
  have h := repsLoop_core g (Nat.choose g.nodes.length kn) na maxCp.toNat d c1 c2
    reps.toNat ⟨ckAccs0 cpsI pcts, 0, 0⟩ ⟨ckAccs0 cpsI pcts, 0, 0⟩ rfl
  simp only [sessCore, Prod.mk.injEq] at h
  exact h.1

/-- C1 (code evaluation at the failing input): for every graph and `k` whose
resolved `kn` is 0, `solve` does not return the claimed success record — it
raises TypeError, because the `kn == 0` branch builds `Solution(...)` without
the required `average_operations_count` argument (solver.py:155-173). -/
theorem C1_solve_kn_zero_raises (g : Graph) (k : PyNum) (ni : PyNum) (reps : Int)
    (na : Nat) (d : Nat → List Nat) (clock : Nat → ℚ)
    (h : adjust_k g k = 0) :
    solve g k ni reps na d clock = .error .typeError := by
  simp only [solve, h, if_pos]

/-- C1 witness: a 1-node graph with `k = 0` resolves to `kn = 0` and `solve`
raises TypeError there. -/
theorem C1_solve_kn_zero_raises_witness :
    adjust_k gW1 (.pint 0) = 0 ∧
      solve gW1 (.pint 0) (.pint 100) 1 10 dW0 cW0 = .error .typeError :=
  ⟨by decide, C1_solve_kn_zero_raises gW1 (.pint 0) (.pint 100) 1 10 dW0 cW0 (by decide)⟩

/-- C6 counterexample: for the integer `k = 2` on 5 nodes the code resolves
`kn = 5` (it multiplies every `k` by `|nodes|`), not the claimed
`clamp(2, 0, 5) = 2`; and for the fractional `k = 1/2` on 3 nodes the code
truncates `1.5` to `1` while the claimed half-even rounding gives `2`. -/
theorem C6_counterexample :
    (adjust_k gW5 (.pint 2) = 5 ∧ adjust_k_claim gW5 (.pint 2) = 2) ∧
      (adjust_k gW3e (.pfloat (1 / 2)) = 1 ∧ adjust_k_claim gW3e (.pfloat (1 / 2)) = 2) := by
  norm_num [adjust_k, adjust_k_claim, roundHalfEven, truncQ, PyNum.mulNat, PyNum.toInt,
    gW5, gW3e, Graph.ofEdges, Int.toNat]

/-- C6 (amended): the resolved subset size is
`clamp(trunc(k * |nodes|), 0, |nodes|)` for every `k` — integer `k` is also
multiplied by `|nodes|`, and fractional products are truncated toward zero,
not rounded. -/
theorem C6_adjust_k_amended (g : Graph) (k : PyNum) :
    adjust_k g k = adjust_k_amended g k := by
  cases k <;> rfl

/-- C10 counterexample: with the draw stream fixed, two invocations that read
different wall clocks disagree (here on `total_time`), so records are not
bit-identical across every field when only the random source is fixed. -/
theorem C10_counterexample :
    solve_at_checkpoints gW1 (.pint 1) [.pint 1] 1 10 dW0 cW0 ≠
      solve_at_checkpoints gW1 (.pint 1) [.pint 1] 1 10 dW0 cWI := by
  norm_num [solve_at_checkpoints, ckConvert, ckPct, ckAccs0, ckRun, repsLoop, repLoop,
    iterStep, attemptLoop, outerLoop, innerLoop, snapSuccess, snapFail, adjust_k,
    PyNum.mulNat, PyNum.toInt, PyNum.toRat, PyNum.isFloat, listMax, mkRecord, gW1,
    Graph.ofEdges, dW0, cW0, cWI, Nat.choose, StepOut.st, SolutionRec.mk.injEq]

/-- C10 (amended): with the draw stream fixed, every field except the
clock-derived `total_time` and `average_repetition_time` is identical across
invocations, whatever each invocation's clock reads; with the clock also
fixed the call is a pure function, so records are then fully identical. -/
theorem C10_determinism_amended (g : Graph) (k : PyNum) (cps : List PyNum) (reps : Int)
    (na : Nat) (d : Nat → List Nat) (c1 c2 : Nat → ℚ) :
    eraseExc (solve_at_checkpoints g k cps reps na d c1) =
      eraseExc (solve_at_checkpoints g k cps reps na d c2) := by
  match cps with
  | [] => rfl
  | c0 :: crest =>
    simp only [solve_at_checkpoints, List.map_cons]
    split_ifs with h0 h1
    · rfl
    · rfl
    · simp only [eraseExc, Except.ok.injEq, CkOutcome.perCheckpoint.injEq]
      exact ckRun_erase g k (adjust_k g k) _ _ _ reps na d c1 c2

/-- C4 counterexample: with `num_attempts = 2` and a ledger already holding
the constantly drawn subset, one iteration consumes 3 draws (the initial draw
plus one redraw per attempt), exceeding the claimed bound of
`num_attempts = 2` total draws. -/
theorem C4_counterexample :
    (iterStep gW4K 2 dW01 cW0 1 stC4).st.dIdx - stC4.dIdx = 3 ∧ 2 < 3 :=
  ⟨rfl, by omega⟩

/-- C4 (amended): within one iteration at most `num_attempts + 1` subset
draws are made — one initial draw plus at most `num_attempts` redraws — and
the iteration always proceeds to the (charged) independence check with the
last draw rather than being skipped. -/
theorem C4_bounded_redraws_amended (g : Graph) (na : Nat) (d : Nat → List Nat)
    (clock : Nat → ℚ) (it : Nat) (st : RepState) :
    (iterStep g na d clock it st).st.dIdx ≤ st.dIdx + (na + 1) ∧
      st.ops + g.nodes.length + 1 ≤ (iterStep g na d clock it st).st.ops := by
  unfold iterStep
  by_cases hc : (outerLoop g (attemptLoop d na (d st.dIdx) st.ledger (st.dIdx + 1)).1
      (st.ops + g.nodes.length) true).2
  · simp only [hc, if_pos, StepOut.st]
    constructor
    · have := attemptLoop_dIdx_le d na (d st.dIdx) st.ledger (st.dIdx + 1)
      omega
    · rw [outerLoop_fst]
      omega
  · simp only [hc, if_neg, Bool.false_eq_true, ite_false, StepOut.st]
    constructor
    · have := attemptLoop_dIdx_le d na (d st.dIdx) st.ledger (st.dIdx + 1)
      omega
    · rw [outerLoop_fst]
      omega

/-- C5 counterexample: on three nodes with the single edge 0-1, the check of
the draw `[0, 1, 2]` finds the edge at the first pair yet still examines the
pair `(1, 2)` (the `break` leaves only the inner loop), and the trial charges
`n + pairs + 1 = 6` operations, not the claimed `n + pairs = 4` of a fully
short-circuited scan. -/
theorem C5_counterexample :
    gW3.hasEdge 0 1 = true ∧
      rowsExamined gW3 [0, 1, 2] = [(0, 1), (1, 2)] ∧
      claimExamined gW3 [0, 1, 2] = [(0, 1)] ∧
      (outerLoop gW3 [0, 1, 2] (0 + 3) true).1 + 1 = 6 ∧
      0 + 3 + (claimExamined gW3 [0, 1, 2]).length = 4 ∧ (4 : Nat) ≠ 6 := by
  refine ⟨rfl, rfl, rfl, rfl, rfl, by omega⟩

/-- C5 (amended): each trial charges `n` operations for sampling, one
operation per pair examined (including failing pairs), plus one final
operation; the scan short-circuits only within the current row — after an
edge `(u, v)` the remaining partners of `u` are skipped, but pairs with later
first elements are still examined, as described by `rowsExamined` — and the
verdict still holds exactly when no two drawn nodes are adjacent. -/
theorem C5_trial_cost_amended (g : Graph) (na : Nat) (d : Nat → List Nat)
    (clock : Nat → ℚ) (it : Nat) (st : RepState) :
    (iterStep g na d clock it st).st.ops =
      st.ops + g.nodes.length +
        (rowsExamined g (attemptLoop d na (d st.dIdx) st.ledger (st.dIdx + 1)).1).length + 1 ∧
      ∀ (sel : List Nat) (ops0 : Nat),
        ((outerLoop g sel ops0 true).2 = true ↔ NoEdgePairwise g sel) := by
  constructor
  · unfold iterStep
    by_cases hc : (outerLoop g (attemptLoop d na (d st.dIdx) st.ledger (st.dIdx + 1)).1
        (st.ops + g.nodes.length) true).2
    · simp only [hc, if_pos, StepOut.st]
      rw [outerLoop_fst]
    · simp only [hc, if_neg, Bool.false_eq_true, ite_false, StepOut.st]
      rw [outerLoop_fst]
  · intro sel ops0
    simpa using outerLoop_snd g sel ops0 true

/-- C2 counterexample: on the complete 2-node graph with `kn = 2` and the
single checkpoint 5, the only possible subset is tried at iteration 0 (ending
with 4 cumulative operations) and the repetition then stops exhausted — but
the checkpoint receives no failure snapshot at all: its Result Record reports
0 average operations and 0 total time instead of carrying the final count 4. -/
theorem C2_counterexample :
    (repLoop gW2K 1 10 dW01 cW0 5 0 stC2).exit = .exhausted ∧
      (repLoop gW2K 1 10 dW01 cW0 5 0 stC2).st.ops = 4 ∧
      (repLoop gW2K 1 10 dW01 cW0 5 0 stC2).st.accs = stC2.accs ∧
      solve_at_checkpoints gW2K (.pint 1) [.pint 5] 1 10 dW01 cW0 =
        .ok (.perCheckpoint [rC2]) ∧
      rC2.average_operations_count = 0 ∧ rC2.total_time = 0 ∧ (4 : ℚ) ≠ 0 := by
  refine ⟨rfl, rfl, ?_, ?_, rfl, rfl, by norm_num⟩
  · norm_num [repLoop, iterStep, attemptLoop, outerLoop, innerLoop, snapSuccess, snapFail,
      gW2K, Graph.ofEdges, dW01, cW0, stC2, StepOut.st]
  · norm_num [solve_at_checkpoints, ckConvert, ckPct, ckAccs0, ckRun, repsLoop, repLoop,
      iterStep, attemptLoop, outerLoop, innerLoop, snapSuccess, snapFail, adjust_k,
      PyNum.mulNat, PyNum.toInt, PyNum.toRat, PyNum.isFloat, listMax, mkRecord, rC2,
      gW2K, Graph.ofEdges, dW01, cW0, Nat.choose, StepOut.st, Int.toNat]

/-- C2 (amended): once the ledger's size equals `C(n, kn)` the repetition
stops early (strictly fewer trials than the budget were executed), but
checkpoints not yet snapshotted receive no failure snapshot: over one
repetition every checkpoint keeps its budget, keeps its operation and time
snapshot lists paired, and gains at most one snapshot — an exhausted
repetition contributes nothing to the checkpoints it never reached, so their
aggregates average over the other repetitions only. -/
theorem C2_exhaustion_amended (g : Graph) (mc na budget : Nat) (d : Nat → List Nat)
    (clock : Nat → ℚ) (st : RepState)
    (hties : ∀ a ∈ st.accs, a.opsL.length = a.times.length) :
    ((repLoop g mc na d clock budget 0 st).exit = .exhausted →
      (repLoop g mc na d clock budget 0 st).trials < budget) ∧
      List.Forall₂ SnapRelFin st.accs ((repLoop g mc na d clock budget 0 st).st.accs) := by
  have hbase : List.Forall₂ (SnapRel ((0 : Nat) : Int)) st.accs st.accs := by
    rw [List.forall₂_same]
    intro a ha
    exact ⟨rfl, hties a ha, by omega, fun hlt => absurd hlt (by omega)⟩
  have h := repLoop_snapRel g mc na d clock st.accs budget 0 st hbase
  refine ⟨fun hx => ?_, h.1⟩
  have := h.2 hx
  omega

/-- C2 witness: the amended statement applied to the exhausting run of the
counterexample. -/
theorem C2_exhaustion_amended_witness :
    (∀ a ∈ stC2.accs, a.opsL.length = a.times.length) ∧
      (((repLoop gW2K 1 10 dW01 cW0 5 0 stC2).exit = .exhausted →
        (repLoop gW2K 1 10 dW01 cW0 5 0 stC2).trials < 5) ∧
      List.Forall₂ SnapRelFin stC2.accs ((repLoop gW2K 1 10 dW01 cW0 5 0 stC2).st.accs)) :=
  ⟨by decide, C2_exhaustion_amended gW2K 1 10 5 dW01 cW0 stC2 (by decide)⟩

/-- C7 counterexample: a call with `num_repetitions = 0` is not rejected — it
returns normally with a per-checkpoint Result Record (success count 0,
probability 0) instead of failing fast. -/
theorem C7_counterexample :
    solve_at_checkpoints gW1 (.pint 1) [.pint 3] 0 10 dW0 cW0 =
      .ok (.perCheckpoint [rC7]) ∧
      rC7.success_count = 0 ∧ rC7.success_probability = 0 := by
  refine ⟨?_, rfl, rfl⟩
  norm_num [solve_at_checkpoints, ckConvert, ckPct, ckAccs0, ckRun, repsLoop, adjust_k,
    PyNum.mulNat, PyNum.toInt, PyNum.toRat, PyNum.isFloat, listMax, mkRecord, rC7, gW1,
    Graph.ofEdges, Nat.choose]

/-- C7 (amended): no explicit validation exists.  An empty checkpoint list
does abort the call (the ValueError that `max()` raises on an empty
sequence), but `num_repetitions < 1` is accepted: the call runs zero
repetitions and returns records with success count and probability 0
(`num_attempts < 1` likewise merely skips the ledger query). -/
theorem C7_validation_amended :
    (∀ (g : Graph) (k : PyNum) (reps : Int) (na : Nat) (d : Nat → List Nat)
      (clock : Nat → ℚ),
      solve_at_checkpoints g k [] reps na d clock = .error .valueError) ∧
      ∀ (g : Graph) (k : PyNum) (c0 : PyNum) (crest : List PyNum) (reps : Int) (na : Nat)
        (d : Nat → List Nat) (clock : Nat → ℚ), reps ≤ 0 → adjust_k g k ≠ 0 →
        ∃ rs, solve_at_checkpoints g k (c0 :: crest) reps na d clock =
            .ok (.perCheckpoint rs) ∧
          ∀ r ∈ rs, r.success_count = 0 ∧ r.success_probability = 0 := by
  constructor
  · intro g k reps na d clock
    rfl
  · intro g k c0 crest reps na d clock hreps h0
    have hle := adjust_k_le g k
    have h1 : ¬ (g.nodes.length < adjust_k g k ∨ g.nodes.length = 0) := by
      refine not_or.mpr ⟨?_, ?_⟩ <;> omega
    have heq : solve_at_checkpoints g k (c0 :: crest) reps na d clock =
        .ok (.perCheckpoint (ckRun g k (adjust_k g k)
          ((c0 :: crest).map (ckConvert ((c0 :: crest).any PyNum.isFloat)
            (Nat.choose g.nodes.length (adjust_k g k))))
          ((c0 :: crest).map (ckPct ((c0 :: crest).any PyNum.isFloat)
            (Nat.choose g.nodes.length (adjust_k g k))))
          (listMax (ckConvert ((c0 :: crest).any PyNum.isFloat)
            (Nat.choose g.nodes.length (adjust_k g k)) c0)
            (crest.map (ckConvert ((c0 :: crest).any PyNum.isFloat)
              (Nat.choose g.nodes.length (adjust_k g k))))) reps na d clock)) := by
      simp only [solve_at_checkpoints, List.map_cons]
      rw [if_neg h0, if_neg h1]
    refine ⟨_, heq, ?_⟩
    intro r hr
    unfold ckRun at hr
    have hz : reps.toNat = 0 := by omega
    rw [hz] at hr
    simp only [repsLoop] at hr
    obtain ⟨a, ha, rfl⟩ := List.mem_map.mp hr
    unfold ckAccs0 at ha
    obtain ⟨pr, hpr, rfl⟩ := List.mem_map.mp ha
    refine ⟨rfl, ?_⟩
    show (if 0 < reps then ((0 : Nat) : ℚ) / (reps : ℚ) else 0) = 0
    rw [if_neg (by omega)]

/-- C7 witness: the empty checkpoint list aborts, and the `num_repetitions = 0`
call of the counterexample returns unrejected zero-probability records. -/
theorem C7_validation_amended_witness :
    solve_at_checkpoints gW1 (.pint 1) [] 1 10 dW0 cW0 = .error .valueError ∧
      ∃ rs, solve_at_checkpoints gW1 (.pint 1) [.pint 3] 0 10 dW0 cW0 =
          .ok (.perCheckpoint rs) ∧
        ∀ r ∈ rs, r.success_count = 0 ∧ r.success_probability = 0 :=
  ⟨C7_validation_amended.1 gW1 (.pint 1) 1 10 dW0 cW0,
    C7_validation_amended.2 gW1 (.pint 1) (.pint 3) [] 0 10 dW0 cW0 (by omega) (by decide)⟩

/-- C8 counterexample: on the empty graph (`n = 0`) the resolved `kn` is 0,
so the `kn == 0` policy fires first and the call reports success probability
1 — not the claimed probability 0. -/
theorem C8_counterexample :
    gW0.nodes.length = 0 ∧
      solve_at_checkpoints gW0 (.pint 0) [.pint 5] 1 10 dW0 cW0 =
        .ok (.single (knZeroRec (.pint 0) 0 5 5 1)) ∧
      (knZeroRec (.pint 0) 0 5 5 1).success_probability = 1 ∧ (1 : ℚ) ≠ 0 := by
  refine ⟨rfl, ?_, rfl, by norm_num⟩
  norm_num [solve_at_checkpoints, ckConvert, ckPct, adjust_k, PyNum.mulNat, PyNum.toInt,
    PyNum.toRat, PyNum.isFloat, listMax, knZeroRec, gW0, Graph.ofEdges, Nat.choose]

/-- C8 (amended): the resolved `kn` never exceeds `|nodes|`, so `kn > n` is
impossible; and when `n = 0` the resolution yields `kn = 0`, so the `kn == 0`
policy applies and the call returns a single success record with probability
1 (the probability-0 branch is unreachable through k-resolution). -/
theorem C8_degenerate_amended (g : Graph) (k : PyNum) :
    adjust_k g k ≤ g.nodes.length ∧
      (g.nodes.length = 0 → ∀ (c0 : PyNum) (crest : List PyNum) (reps : Int) (na : Nat)
        (d : Nat → List Nat) (clock : Nat → ℚ),
        ∃ maxCp maxPct, solve_at_checkpoints g k (c0 :: crest) reps na d clock =
            .ok (.single (knZeroRec k 0 maxCp maxPct reps)) ∧
          (knZeroRec k 0 maxCp maxPct reps).success_probability = 1) := by
  refine ⟨adjust_k_le g k, ?_⟩
  intro hn c0 crest reps na d clock
  have h0 : adjust_k g k = 0 := adjust_k_zero_of_no_nodes g k hn
  have heq : solve_at_checkpoints g k (c0 :: crest) reps na d clock =
      .ok (.single (knZeroRec k 0
        (listMax (ckConvert ((c0 :: crest).any PyNum.isFloat)
          (Nat.choose g.nodes.length (adjust_k g k)) c0)
          (crest.map (ckConvert ((c0 :: crest).any PyNum.isFloat)
            (Nat.choose g.nodes.length (adjust_k g k)))))
        (listMax (ckPct ((c0 :: crest).any PyNum.isFloat)
          (Nat.choose g.nodes.length (adjust_k g k)) c0)
          (crest.map (ckPct ((c0 :: crest).any PyNum.isFloat)
            (Nat.choose g.nodes.length (adjust_k g k))))) reps)) := by
    simp only [solve_at_checkpoints, List.map_cons]
    rw [if_pos h0, h0]
  exact ⟨_, _, heq, rfl⟩

/-- C8 witness: the amended statement applied to the empty graph. -/
theorem C8_degenerate_amended_witness :
    gW0.nodes.length = 0 ∧
      ∃ maxCp maxPct, solve_at_checkpoints gW0 (.pint 0) [.pint 5] 1 10 dW0 cW0 =
          .ok (.single (knZeroRec (.pint 0) 0 maxCp maxPct 1)) ∧
        (knZeroRec (.pint 0) 0 maxCp maxPct 1).success_probability = 1 :=
  ⟨rfl, (C8_degenerate_amended gW0 (.pint 0)).2 rfl (.pint 5) [] 1 10 dW0 cW0⟩

/-- C3 witness: the monotonicity statement applied to a run with checkpoints
1 and 2. -/
theorem C3_success_probability_monotone_witness :
    rC3a.iterations < rC3b.iterations ∧
      rC3a.success_probability ≤ rC3b.success_probability := by
  have h : solve_at_checkpoints gW1 (.pint 1) [.pint 1, .pint 2] 1 1 dW0 cW0 =
      .ok (.perCheckpoint [rC3a, rC3b]) := by
    norm_num [solve_at_checkpoints, ckConvert, ckPct, ckAccs0, ckRun, repsLoop, repLoop,
      iterStep, attemptLoop, outerLoop, innerLoop, snapSuccess, snapFail, adjust_k,
      PyNum.mulNat, PyNum.toInt, PyNum.toRat, PyNum.isFloat, listMax, mkRecord, rC3a,
      rC3b, gW1, Graph.ofEdges, dW0, cW0, Nat.choose, StepOut.st]
  exact ⟨by decide,
    C3_success_probability_monotone gW1 (.pint 1) [.pint 1, .pint 2] 1 1 dW0 cW0
      [rC3a, rC3b] h rC3a (by simp) rC3b (by simp) (by decide)⟩

/-- C9 witness: the validity statement applied to a run that reports the
witness `[0]` on the 1-node graph. -/
theorem C9_witness_validity_witness :
    [0].length = adjust_k gW1 (.pint 1) ∧ ([0] : List Nat).Nodup ∧
      ∀ u ∈ ([0] : List Nat), ∀ v ∈ ([0] : List Nat), u ≠ v → gW1.hasEdge u v = false := by
  have hd : DrawsValid gW1 (adjust_k gW1 (.pint 1)) dW0 := by
    intro i
    refine ⟨?_, ?_, ?_⟩
    · show ([0] : List Nat).length = adjust_k gW1 (.pint 1)
      decide
    · show ([0] : List Nat).Nodup
      decide
    · show ∀ x ∈ ([0] : List Nat), x ∈ gW1.nodes
      decide
  have h : solve_at_checkpoints gW1 (.pint 1) [.pint 1] 1 10 dW0 cW0 =
      .ok (.perCheckpoint [rC9]) := by
    norm_num [solve_at_checkpoints, ckConvert, ckPct, ckAccs0, ckRun, repsLoop, repLoop,
      iterStep, attemptLoop, outerLoop, innerLoop, snapSuccess, snapFail, adjust_k,
      PyNum.mulNat, PyNum.toInt, PyNum.toRat, PyNum.isFloat, listMax, mkRecord, rC9, gW1,
      Graph.ofEdges, dW0, cW0, Nat.choose, StepOut.st]
  exact C9_witness_validity gW1 (.pint 1) [.pint 1] 1 10 dW0 cW0
    (.perCheckpoint [rC9]) hd h rC9 (by simp [CkOutcome.records]) [0] rfl
